import Mathlib

/-!
Verification of the LabDAMD resilient messaging fabric.

This file shallowly embeds the core components of the repository:

* `ChatService` (chat server): room registry, user streams, per-room
  message history, presence, the stream message dispatch
  (`handleChatMessage`, `handleTypingIndicator`, `handleSystemMessage`),
  and the unary operations `joinRoom`, `leaveRoom`, `getHistory`,
  `updatePresence`.
* `CircuitBreaker`, `withRetry` (shared error-handling middleware).
* `LoadBalancer` (round-robin endpoint selection, `markUnhealthy`).

JavaScript `Map`s are embedded as association lists whose `set` updates
in place (preserving key order) and appends new keys at the end, as JS
insertion-order semantics prescribe; JS `Set`s are embedded as
duplicate-free lists in insertion order.  `Date.now()` and `uuidv4()`
are passed in as explicit parameters.  Broadcasts are returned as the
list of (recipient, message) writes the code performs.
-/

/-- The message `type` field: `TEXT`, `IMAGE`, `FILE`, `TYPING`, `SYSTEM`. -/
inductive MsgType where
  | TEXT
  | IMAGE
  | FILE
  | TYPING
  | SYSTEM
deriving DecidableEq, Repr

/-- A chat message record, as built and stored by the chat server. -/
structure Msg where
  id : String
  room_id : String
  user_id : String
  username : String
  content : String
  type : MsgType
  timestamp : Nat
deriving DecidableEq, Repr

/-- Lookup in a JS `Map` embedded as an association list (`Map.get`):
the binding of the first (and, for genuine JS maps, only) matching key. -/
def mapGet {α : Type} : List (String × α) → String → Option α
  | [], _ => none
  | (k1, v) :: rest, k => if k1 = k then some v else mapGet rest k

/-- JS `Map.set`: update an existing key in place, append a new key. -/
def mapSet {α : Type} (m : List (String × α)) (k : String) (v : α) :
    List (String × α) :=
  match m with
  | [] => [(k, v)]
  | (k1, v1) :: rest =>
      if k1 = k then (k, v) :: rest else (k1, v1) :: mapSet rest k v

/-- JS `Map.delete`: remove a key, preserving the order of the rest. -/
def mapDelete {α : Type} (m : List (String × α)) (k : String) :
    List (String × α) :=
  match m with
  | [] => []
  | (k1, v1) :: rest =>
      if k1 = k then rest else (k1, v1) :: mapDelete rest k

/-- JS `Set.add`: append the element if it is not already present. -/
def setAdd (s : List String) (x : String) : List String :=
  if x ∈ s then s else s ++ [x]

/-- JS `Set.delete`: remove the element, preserving the order of the rest. -/
def setDelete (s : List String) (x : String) : List String :=
  s.erase x

/-!
## `ChatService.getHistory` (pure core)

```js
const { room_id, limit = 50, before_timestamp } = call.request;
let messages = this.messageHistory.get(room_id) || [];
if (before_timestamp) {
  messages = messages.filter(msg => msg.timestamp < before_timestamp);
}
messages = messages.sort((a, b) => b.timestamp - a.timestamp).slice(0, limit);
const hasMore = messages.length === limit;
callback(null, { messages: messages.reverse(), has_more: hasMore });
```

`limit` is an `Option Nat`: the destructuring default `50` applies
exactly when the field is `undefined` (absent), not when it is `0`.
`before_timestamp` is a `Nat` where `0` is falsy, so the filter runs
exactly when `before_timestamp ≠ 0` (JS truthiness).  JS
`Array.prototype.sort` is a stable sort, so it is embedded as the stable
`List.insertionSort` with the ordering induced by the comparator
`(a, b) => b.timestamp - a.timestamp`, i.e. descending by timestamp (a
stable sort's output is uniquely determined by the ordering, so any
stable sort embeds the JS one faithfully).
-/

/-- Descending-timestamp ordering derived from `(a, b) => b.timestamp - a.timestamp`. -/
def byTimestampDesc (a b : Msg) : Prop :=
  b.timestamp ≤ a.timestamp

instance : DecidableRel byTimestampDesc :=
  fun a b => Nat.decLe b.timestamp a.timestamp

instance : IsTotal Msg byTimestampDesc :=
  ⟨fun a b => Nat.le_total b.timestamp a.timestamp⟩

instance : IsTrans Msg byTimestampDesc :=
  ⟨fun _ _ _ hab hbc => Nat.le_trans hbc hab⟩

/-- The pure core of `ChatService.getHistory`, acting on one room's stored
message list.  Returns (messages in chronological order, `has_more`). -/
def getHistoryCore (history : List Msg) (limit : Option Nat)
    (before_timestamp : Nat) : List Msg × Bool :=
  let lim := limit.getD 50
  let messages :=
    if before_timestamp ≠ 0 then
      history.filter (fun msg => msg.timestamp < before_timestamp)
    else history
  let sorted := (messages.insertionSort byTimestampDesc).take lim
  let hasMore := sorted.length == lim
  (sorted.reverse, hasMore)

/-!
## `ChatService` state and operations
-/

/-- The mutable fields of a `ChatService` instance:

```js
this.rooms = new Map();          // roomId -> Set of userIds
this.userStreams = new Map();    // userId -> stream
this.userRooms = new Map();      // userId -> Set of roomIds
this.messageHistory = new Map(); // roomId -> Array of messages
this.userPresence = new Map();   // userId -> status
```

`userStreams` is embedded as the set of user ids that currently hold a
live (non-destroyed) stream. -/
structure ChatState where
  rooms : List (String × List String)
  userStreams : List String
  userRooms : List (String × List String)
  messageHistory : List (String × List Msg)
  userPresence : List (String × String)
deriving DecidableEq, Repr

/-- A freshly constructed `ChatService`: every map empty. -/
def chatInit : ChatState :=
  ⟨[], [], [], [], []⟩

/-- The member set of a room (`this.rooms.get(roomId) || new Set()`). -/
def membersOf (s : ChatState) (roomId : String) : List String :=
  (mapGet s.rooms roomId).getD []

/-- The stored history of a room (`this.messageHistory.get(roomId) || []`). -/
def historyOf (s : ChatState) (roomId : String) : List Msg :=
  (mapGet s.messageHistory roomId).getD []

/-- `ChatService.broadcastToRoom(roomId, message, excludeUserId)`: for each
member of the room other than `excludeUserId`, write the message to their
stream when one is live.  The result is the list of performed writes. -/
def broadcastToRoom (s : ChatState) (roomId : String) (message : Msg)
    (excludeUserId : Option String) : List (String × Msg) :=
  ((membersOf s roomId).filter
    (fun userId => excludeUserId ≠ some userId ∧ userId ∈ s.userStreams)).map
    (fun userId => (userId, message))

/-- Binding a stream to a user id in `chatStream`
(`this.userStreams.set(userId, call)`). -/
def bindStream (s : ChatState) (userId : String) : ChatState :=
  { s with userStreams := setAdd s.userStreams userId }

/-- `ChatService.handleChatMessage(message, userRooms)` for
`TEXT`/`IMAGE`/`FILE` messages: throws `User not in room` when the
sender's current room set lacks `room_id`; otherwise assigns a fresh id
and timestamp, appends to the room history, and broadcasts to the whole
room.  `currentRooms` is the stream handler's local room set. -/
def handleChatMessage (s : ChatState) (currentRooms : List String)
    (message : Msg) (freshId : String) (now : Nat) :
    Except String (ChatState × List (String × Msg)) :=
  if message.room_id ∉ currentRooms then
    .error "User not in room"
  else
    let stamped := { message with id := freshId, timestamp := now }
    let hist := (mapGet s.messageHistory message.room_id).getD []
    let s1 := { s with
      messageHistory :=
        mapSet s.messageHistory message.room_id (hist ++ [stamped]) }
    .ok (s1, broadcastToRoom s1 message.room_id stamped none)

/-- `ChatService.handleTypingIndicator(message, userRooms)`: silently
ignored when the sender is not in the room; otherwise broadcast to the
room excluding the sender; never stored in history. -/
def handleTypingIndicator (s : ChatState) (currentRooms : List String)
    (message : Msg) : ChatState × List (String × Msg) :=
  if message.room_id ∉ currentRooms then
    (s, [])
  else
    (s, broadcastToRoom s message.room_id message (some message.user_id))

/-- `ChatService.handleSystemMessage(message, userRooms)`: assigns a fresh
id and timestamp, appends to the room history (creating the entry when
absent), and broadcasts to the whole room.  No membership check. -/
def handleSystemMessage (s : ChatState) (message : Msg) (freshId : String)
    (now : Nat) : ChatState × List (String × Msg) :=
  let stamped := { message with id := freshId, timestamp := now }
  let hist := (mapGet s.messageHistory message.room_id).getD []
  let s1 := { s with
    messageHistory :=
      mapSet s.messageHistory message.room_id (hist ++ [stamped]) }
  (s1, broadcastToRoom s1 message.room_id stamped none)

/-- The `switch (message.type)` dispatch in `chatStream`'s data handler. -/
def processMessage (s : ChatState) (currentRooms : List String)
    (message : Msg) (freshId : String) (now : Nat) :
    Except String (ChatState × List (String × Msg)) :=
  match message.type with
  | .TEXT => handleChatMessage s currentRooms message freshId now
  | .IMAGE => handleChatMessage s currentRooms message freshId now
  | .FILE => handleChatMessage s currentRooms message freshId now
  | .TYPING => .ok (handleTypingIndicator s currentRooms message)
  | .SYSTEM => .ok (handleSystemMessage s message freshId now)

/-- `ChatService.joinRoom`: add the user to the room's member set (creating
the room when absent), record the room in the user's room set, set
presence `ONLINE`, and broadcast a SYSTEM "joined" notification to the
whole room.  Returns the new state, the broadcast writes, and the
`participants` list of the response. -/
def joinRoom (s : ChatState) (room_id user_id username : String)
    (freshId : String) (now : Nat) :
    ChatState × List (String × Msg) × List String :=
  let roomMembers := (mapGet s.rooms room_id).getD []
  let rooms1 := mapSet s.rooms room_id (setAdd roomMembers user_id)
  let userRoomSet := (mapGet s.userRooms user_id).getD []
  let userRooms1 := mapSet s.userRooms user_id (setAdd userRoomSet room_id)
  let s1 := { s with
    rooms := rooms1
    userRooms := userRooms1
    userPresence := mapSet s.userPresence user_id "ONLINE" }
  let participants := (mapGet s1.rooms room_id).getD []
  let joinMessage : Msg :=
    ⟨freshId, room_id, user_id, username,
      s!"{username} joined the room", .SYSTEM, now⟩
  (s1, broadcastToRoom s1 room_id joinMessage none, participants)

/-- `ChatService.leaveRoom`: remove the user from the room's member set;
delete the room from the registry when the set becomes empty; remove the
room from the user's room set; broadcast a SYSTEM "left" notification.
The `messageHistory` map is not touched. -/
def leaveRoom (s : ChatState) (room_id user_id : String)
    (freshId : String) (now : Nat) : ChatState × List (String × Msg) :=
  let rooms1 :=
    match mapGet s.rooms room_id with
    | none => s.rooms
    | some members =>
        let members1 := setDelete members user_id
        if members1.length = 0 then mapDelete s.rooms room_id
        else mapSet s.rooms room_id members1
  let userRooms1 :=
    match mapGet s.userRooms user_id with
    | none => s.userRooms
    | some roomSet => mapSet s.userRooms user_id (setDelete roomSet room_id)
  let s1 := { s with rooms := rooms1, userRooms := userRooms1 }
  let leaveMessage : Msg :=
    ⟨freshId, room_id, user_id, "", "User left the room", .SYSTEM, now⟩
  (s1, broadcastToRoom s1 room_id leaveMessage none)

/-- `ChatService.getHistory` as the service-level operation: read the
room's stored history and apply the pure pagination core. -/
def getHistoryService (s : ChatState) (room_id : String)
    (limit : Option Nat) (before_timestamp : Nat) : List Msg × Bool :=
  getHistoryCore (historyOf s room_id) limit before_timestamp

/-- `ChatService.updatePresence`: overwrite the user's presence status and
broadcast a SYSTEM presence notification, excluding the user, to every
room in the user's room set.  History is not touched.  `freshIds` and
`now` supply the uuid/clock values consumed per room. -/
def updatePresence (s : ChatState) (user_id status : String)
    (freshIds : List String) (now : Nat) :
    ChatState × List (String × Msg) :=
  let s1 := { s with userPresence := mapSet s.userPresence user_id status }
  let userRoomSet := (mapGet s1.userRooms user_id).getD []
  let writes :=
    (userRoomSet.zip freshIds).flatMap (fun p =>
      let presenceMessage : Msg :=
        ⟨p.2, p.1, user_id, "", s!"User is now {status}", .SYSTEM, now⟩
      broadcastToRoom s1 p.1 presenceMessage (some user_id))
  (s1, writes)

/-- `ChatService.handleUserDisconnect`: drop the stream, set presence
`OFFLINE`, and broadcast a SYSTEM "left" notification to every room in the
connection's room set.  Membership and history are not touched. -/
def handleUserDisconnect (s : ChatState) (userId : String)
    (userRooms : List String) (freshIds : List String) (now : Nat) :
    ChatState × List (String × Msg) :=
  let s1 := { s with
    userStreams := setDelete s.userStreams userId
    userPresence := mapSet s.userPresence userId "OFFLINE" }
  let writes :=
    (userRooms.zip freshIds).flatMap (fun p =>
      let leaveMessage : Msg :=
        ⟨p.2, p.1, userId, "", "User left the room", .SYSTEM, now⟩
      broadcastToRoom s1 p.1 leaveMessage none)
  (s1, writes)

/-!
## Traces of service events

Each constructor carries the environment inputs the corresponding
handler consumes (fresh uuids, the server clock, the stream handler's
local room set).
-/

/-- One externally triggered step of the `ChatService`. -/
inductive ChatEvent where
  | bind (userId : String)
  | stream (currentRooms : List String) (message : Msg)
      (freshId : String) (now : Nat)
  | join (room_id user_id username freshId : String) (now : Nat)
  | leave (room_id user_id freshId : String) (now : Nat)
  | presence (user_id status : String) (freshIds : List String) (now : Nat)
  | disconnect (userId : String) (userRooms : List String)
      (freshIds : List String) (now : Nat)
deriving Repr

/-- Apply one event to the service state (a failed `handleChatMessage`
leaves the state unchanged, as the thrown error aborts the handler before
any mutation). -/
def chatStep (s : ChatState) : ChatEvent → ChatState
  | .bind userId => bindStream s userId
  | .stream currentRooms message freshId now =>
      match processMessage s currentRooms message freshId now with
      | .ok (s1, _) => s1
      | .error _ => s
  | .join room_id user_id username freshId now =>
      (joinRoom s room_id user_id username freshId now).1
  | .leave room_id user_id freshId now =>
      (leaveRoom s room_id user_id freshId now).1
  | .presence user_id status freshIds now =>
      (updatePresence s user_id status freshIds now).1
  | .disconnect userId userRooms freshIds now =>
      (handleUserDisconnect s userId userRooms freshIds now).1

/-- Run a list of events from a state. -/
def chatRun (s : ChatState) (events : List ChatEvent) : ChatState :=
  events.foldl chatStep s

/-!
## Circuit breaker (`shared/middleware/error-handling.js`)

```js
class CircuitBreaker {
  constructor(options = {}) {
    this.failureThreshold = options.failureThreshold || 5;
    this.resetTimeout = options.resetTimeout || 60000;
    this.state = 'CLOSED';
    this.failures = 0;
    this.nextAttempt = Date.now();
  }
  async execute(operation) {
    if (this.state === 'OPEN') {
      if (Date.now() < this.nextAttempt) {
        throw new GrpcError(ErrorCodes.UNAVAILABLE, 'Circuit breaker is OPEN');
      }
      this.state = 'HALF_OPEN';
    }
    try { const result = await operation(); this.onSuccess(); return result; }
    catch (error) { this.onFailure(); throw error; }
  }
  onSuccess() { this.failures = 0; this.state = 'CLOSED'; }
  onFailure() {
    this.failures++;
    if (this.failures >= this.failureThreshold) {
      this.state = 'OPEN';
      this.nextAttempt = Date.now() + this.resetTimeout;
    }
  }
}
```

`execute` is split at its `await` point into an admission phase
(everything before `operation()` runs) and a settlement phase
(`onSuccess`/`onFailure`), so that the state visible to a second caller
while a trial is in flight is expressible.  `execute` itself is the
composition of the two.
-/

/-- Circuit breaker state tag. -/
inductive CBState where
  | CLOSED
  | OPEN
  | HALF_OPEN
deriving DecidableEq, Repr

/-- The fields of a `CircuitBreaker` instance. -/
structure CircuitBreaker where
  failureThreshold : Nat
  resetTimeout : Nat
  state : CBState
  failures : Nat
  nextAttempt : Nat
deriving DecidableEq, Repr

/-- `new CircuitBreaker({failureThreshold, resetTimeout})` at clock `now`. -/
def CircuitBreaker.make (failureThreshold resetTimeout now : Nat) :
    CircuitBreaker :=
  ⟨failureThreshold, resetTimeout, .CLOSED, 0, now⟩

/-- `onSuccess()`. -/
def CircuitBreaker.onSuccess (cb : CircuitBreaker) : CircuitBreaker :=
  { cb with failures := 0, state := .CLOSED }

/-- `onFailure()` at clock `now`. -/
def CircuitBreaker.onFailure (cb : CircuitBreaker) (now : Nat) :
    CircuitBreaker :=
  let failures1 := cb.failures + 1
  if cb.failureThreshold ≤ failures1 then
    { cb with
        failures := failures1
        state := .OPEN
        nextAttempt := now + cb.resetTimeout }
  else
    { cb with failures := failures1 }

/-- Admission phase of `execute`: the code up to and including the
`this.state = 'HALF_OPEN'` assignment.  Returns `(invoked, cb1)` where
`invoked = false` means the call threw `Circuit breaker is OPEN` without
invoking the operation. -/
def CircuitBreaker.admit (cb : CircuitBreaker) (now : Nat) :
    Bool × CircuitBreaker :=
  if cb.state = .OPEN then
    if now < cb.nextAttempt then (false, cb)
    else (true, { cb with state := .HALF_OPEN })
  else (true, cb)

/-- One possible outcome of `execute`. -/
inductive ExecOutcome (α ε : Type) where
  | rejected
  | ok (a : α)
  | failed (e : ε)
deriving DecidableEq, Repr

/-- Full `execute`: admission, then the operation's result settles the
breaker via `onSuccess`/`onFailure`.  `opResult` is the value the awaited
operation would produce if invoked; when the call is rejected the
operation is not consulted. -/
def CircuitBreaker.execute (cb : CircuitBreaker) (now : Nat)
    {α ε : Type} (opResult : Except ε α) : ExecOutcome α ε × CircuitBreaker :=
  match cb.admit now with
  | (false, cb1) => (.rejected, cb1)
  | (true, cb1) =>
      match opResult with
      | .ok a => (.ok a, cb1.onSuccess)
      | .error e => (.failed e, cb1.onFailure now)

/-!
## Retry with exponential backoff (`withRetry`)

```js
async function withRetry(operation, maxRetries = 3, baseDelay = 1000) {
  for (let attempt = 1; attempt <= maxRetries; attempt++) {
    try { return await operation(); }
    catch (error) {
      if (attempt === maxRetries) { throw error; }
      if (error.code === ErrorCodes.UNAVAILABLE ||
          error.code === ErrorCodes.DEADLINE_EXCEEDED ||
          error.code === ErrorCodes.RESOURCE_EXHAUSTED) {
        const delay = baseDelay * Math.pow(2, attempt - 1);
        await new Promise(resolve => setTimeout(resolve, delay));
      } else { throw error; }
    }
  }
}
```

The operation is embedded as a function from the attempt number
(starting at 1) to that attempt's result; errors carry their gRPC status
code.  The embedding also returns the list of backoff delays slept, in
order.  It covers `maxRetries ≥ 1` (with `maxRetries = 0` the JS loop
body never runs).
-/

/-- gRPC status codes used by the middleware (`ErrorCodes`). -/
def UNAVAILABLE : Nat := 14

/-- `ErrorCodes.DEADLINE_EXCEEDED`. -/
def DEADLINE_EXCEEDED : Nat := 4

/-- `ErrorCodes.RESOURCE_EXHAUSTED`. -/
def RESOURCE_EXHAUSTED : Nat := 8

/-- `ErrorCodes.INVALID_ARGUMENT`. -/
def INVALID_ARGUMENT : Nat := 3

/-- The transient-classification test in `withRetry`'s catch block. -/
def isTransient (code : Nat) : Bool :=
  code == UNAVAILABLE || code == DEADLINE_EXCEEDED ||
    code == RESOURCE_EXHAUSTED

/-- The `withRetry` loop from attempt number `attempt`, with
`remaining = maxRetries - attempt` further attempts allowed.  Returns the
final result and the backoff delays slept. -/
def withRetryFrom {α : Type} (operation : Nat → Except Nat α)
    (baseDelay : Nat) (attempt : Nat) :
    (remaining : Nat) → Except Nat α × List Nat
  | 0 =>
      match operation attempt with
      | .ok a => (.ok a, [])
      | .error e => (.error e, [])
  | remaining + 1 =>
      match operation attempt with
      | .ok a => (.ok a, [])
      | .error e =>
          if isTransient e then
            let delay := baseDelay * 2 ^ (attempt - 1)
            let rest := withRetryFrom operation baseDelay (attempt + 1) remaining
            (rest.1, delay :: rest.2)
          else (.error e, [])

/-- `withRetry(operation, maxRetries, baseDelay)` for `maxRetries ≥ 1`:
result together with the list of backoff delays slept. -/
def withRetry {α : Type} (operation : Nat → Except Nat α)
    (maxRetries baseDelay : Nat) : Except Nat α × List Nat :=
  withRetryFrom operation baseDelay 1 (maxRetries - 1)

/-!
## Load balancer (`grpc-client.js`)

```js
getEndpoint() {
  const healthy = Array.from(this.healthyEndpoints);
  if (healthy.length === 0) { throw new Error('No healthy endpoints available'); }
  switch (this.strategy) {
    case 'round-robin': return this.roundRobin(healthy);
    ...
    default: return this.roundRobin(healthy);
  }
}
roundRobin(endpoints) {
  const endpoint = endpoints[this.currentIndex % endpoints.length];
  this.currentIndex++;
  return endpoint;
}
markUnhealthy(endpoint) { this.healthyEndpoints.delete(endpoint); }
```

The healthy set is embedded as a duplicate-free list in insertion order
(what `Array.from` of the JS `Set` yields).  `getEndpoint` is embedded
for the round-robin strategy, which is both the `'round-robin'` case and
the `default` case of the strategy switch; `none` stands for the thrown
`No healthy endpoints available` error.
-/

/-- The `LoadBalancer` fields consumed by round-robin selection. -/
structure LoadBalancer where
  endpoints : List String
  healthyEndpoints : List String
  currentIndex : Nat
deriving DecidableEq, Repr

/-- `getEndpoint()` under the round-robin strategy: `none` is the
`No healthy endpoints available` error, otherwise the selected endpoint
and the balancer with its cursor advanced. -/
def LoadBalancer.getEndpoint (lb : LoadBalancer) :
    Option (String × LoadBalancer) :=
  match lb.healthyEndpoints with
  | [] => none
  | e :: es =>
      some ((e :: es).get ⟨lb.currentIndex % (e :: es).length,
              Nat.mod_lt _ (Nat.succ_pos es.length)⟩,
            { lb with currentIndex := lb.currentIndex + 1 })

/-- `markUnhealthy(endpoint)`. -/
def LoadBalancer.markUnhealthy (lb : LoadBalancer) (endpoint : String) :
    LoadBalancer :=
  { lb with healthyEndpoints := lb.healthyEndpoints.erase endpoint }

/-- The outputs of `n` successive `getEndpoint()` calls (a failed call
leaves the balancer unchanged). -/
def LoadBalancer.getEndpointSeq (lb : LoadBalancer) :
    Nat → List (Option String)
  | 0 => []
  | n + 1 =>
      match lb.getEndpoint with
      | none => none :: lb.getEndpointSeq n
      | some (e, lb1) => some e :: lb1.getEndpointSeq n

/-!
## Theorems

### Circuit breaker
-/

/-- C2: For a `CircuitBreaker` with `failureThreshold = 2` starting
`CLOSED`, two consecutive failed executes leave it `OPEN` with
`nextAttempt = now + resetTimeout`; every execute before `nextAttempt`
elapses is rejected with the circuit-open error without invoking the
operation and without changing the breaker; once `nextAttempt` has
elapsed the next execute invokes the operation as a trial, whose success
moves the state to `CLOSED` with the failure counter reset to zero and
whose failure moves the state back to `OPEN` with `nextAttempt` reset. -/
theorem circuitBreaker_threshold_two_lifecycle
    (rt n0 t1 t2 tb ta a e : Nat) :
    (CircuitBreaker.make 2 rt n0).execute t1 (.error e : Except Nat Nat) =
      (.failed e, ⟨2, rt, .CLOSED, 1, n0⟩) ∧
    (⟨2, rt, .CLOSED, 1, n0⟩ : CircuitBreaker).execute t2
        (.error e : Except Nat Nat) =
      (.failed e, ⟨2, rt, .OPEN, 2, t2 + rt⟩) ∧
    (∀ opResult : Except Nat Nat, tb < t2 + rt →
      (⟨2, rt, .OPEN, 2, t2 + rt⟩ : CircuitBreaker).execute tb opResult =
        (.rejected, ⟨2, rt, .OPEN, 2, t2 + rt⟩)) ∧
    (t2 + rt ≤ ta →
      (⟨2, rt, .OPEN, 2, t2 + rt⟩ : CircuitBreaker).execute ta
          (.ok a : Except Nat Nat) =
        (.ok a, ⟨2, rt, .CLOSED, 0, t2 + rt⟩)) ∧
    (t2 + rt ≤ ta →
      (⟨2, rt, .OPEN, 2, t2 + rt⟩ : CircuitBreaker).execute ta
          (.error e : Except Nat Nat) =
        (.failed e, ⟨2, rt, .OPEN, 3, ta + rt⟩)) := by
  refine ⟨?_, ?_, ?_, ?_, ?_⟩
  · simp [CircuitBreaker.make, CircuitBreaker.execute, CircuitBreaker.admit,
      CircuitBreaker.onFailure]
  · simp [CircuitBreaker.execute, CircuitBreaker.admit,
      CircuitBreaker.onFailure]
  · intro opResult hb
    cases opResult <;>
      simp [CircuitBreaker.execute, CircuitBreaker.admit, hb]
  · intro hta
    simp [CircuitBreaker.execute, CircuitBreaker.admit,
      CircuitBreaker.onSuccess, Nat.not_lt.mpr hta]
  · intro hta
    simp [CircuitBreaker.execute, CircuitBreaker.admit,
      CircuitBreaker.onFailure, Nat.not_lt.mpr hta]

/-- Witness for `circuitBreaker_threshold_two_lifecycle` at
`resetTimeout = 100`, trip time `t2 = 2`, a rejected call at `t = 50`
and trial calls at `t = 200`. -/
theorem circuitBreaker_threshold_two_lifecycle_witness :
    (CircuitBreaker.make 2 100 0).execute 1 (.error 14 : Except Nat Nat) =
      (.failed 14, ⟨2, 100, .CLOSED, 1, 0⟩) ∧
    (⟨2, 100, .OPEN, 2, 102⟩ : CircuitBreaker).execute 50
        (.ok 5 : Except Nat Nat) =
      (.rejected, ⟨2, 100, .OPEN, 2, 102⟩) ∧
    (⟨2, 100, .OPEN, 2, 102⟩ : CircuitBreaker).execute 200
        (.ok 5 : Except Nat Nat) =
      (.ok 5, ⟨2, 100, .CLOSED, 0, 102⟩) ∧
    (⟨2, 100, .OPEN, 2, 102⟩ : CircuitBreaker).execute 200
        (.error 14 : Except Nat Nat) =
      (.failed 14, ⟨2, 100, .OPEN, 3, 300⟩) := by
  obtain ⟨h1, _, h3, h4, h5⟩ :=
    circuitBreaker_threshold_two_lifecycle 100 0 1 2 50 200 5 14
  exact ⟨h1, h3 (.ok 5) (by decide), h4 (by decide), h5 (by decide)⟩

/-- C3: the admission guard of `CircuitBreaker.execute` only fires in
state `OPEN`; a breaker sitting in `HALF_OPEN` (a trial call admitted
at the OPEN→HALF_OPEN transition but not yet settled) admits every
further call, invoking the operation instead of rejecting it.  Concretely:
a breaker `⟨2, 1000, OPEN, 2, 500⟩` admits a trial at `t = 600`, moving
to `HALF_OPEN`, and while that trial is in flight a second call at
`t = 601` is also admitted (`invoked = true`), contradicting the
claimed at-most-one-trial guard. -/
theorem circuitBreaker_halfOpen_admits_parallel_trials :
    CircuitBreaker.admit ⟨2, 1000, .OPEN, 2, 500⟩ 600 =
      (true, ⟨2, 1000, .HALF_OPEN, 2, 500⟩) ∧
    CircuitBreaker.admit ⟨2, 1000, .HALF_OPEN, 2, 500⟩ 601 =
      (true, ⟨2, 1000, .HALF_OPEN, 2, 500⟩) ∧
    (CircuitBreaker.execute ⟨2, 1000, .HALF_OPEN, 2, 500⟩ 601
        (.ok 7 : Except Nat Nat)).1 = .ok 7 := by
  decide

/-!
### Retry with backoff
-/

/-- The backoff delays slept by the retry loop starting at attempt
`attempt ≥ 1` form the geometric sequence
`baseDelay * 2 ^ (attempt - 1), baseDelay * 2 ^ attempt, …`. -/
theorem withRetryFrom_delays {α : Type} (op : Nat → Except Nat α)
    (b : Nat) (attempt : Nat) (rem : Nat) (h1 : 1 ≤ attempt) :
    (withRetryFrom op b attempt rem).2 =
      (List.range (withRetryFrom op b attempt rem).2.length).map
        (fun i => b * 2 ^ (attempt - 1 + i)) := by
  induction rem generalizing attempt with
  | zero => cases h : op attempt <;> simp [withRetryFrom, h]
  | succ r ih =>
    cases h : op attempt with
    | ok a => simp [withRetryFrom, h]
    | error e =>
      by_cases ht : isTransient e
      · have ihs := ih (attempt + 1) (Nat.le_succ_of_le h1)
        simp only [withRetryFrom, h, ht, if_true, List.length_cons,
          List.range_succ_eq_map, List.map_cons, List.map_map,
          List.cons.injEq]
        constructor
        · simp
        · conv_lhs => rw [ihs]
          apply List.map_congr_left
          intro i _
          simp only [Function.comp]
          have hx : attempt + 1 - 1 + i = attempt - 1 + (i + 1) := by omega
          simp [hx]
          omega
      · simp [withRetryFrom, h, ht]

/-- C4: `withRetry(operation, 3, 1000)` retries a failing operation only
when the failure code is transient (`UNAVAILABLE`, `DEADLINE_EXCEEDED`,
`RESOURCE_EXHAUSTED`); a non-transient failure propagates immediately on
first occurrence with no backoff sleep; the backoff delays are `1000ms`
before attempt 2 and `2000ms` before attempt 3; after all 3 attempts
fail, the last failure propagates unchanged (whatever its
classification); and in general the i-th backoff delay (slept before
attempt i+2) is `baseDelay * 2 ^ i`, i.e. `baseDelay * 2 ^ (n - 2)`
before attempt `n`. -/
theorem withRetry_transient_backoff
    (op : Nat → Except Nat Nat) (a e1 e2 e3 : Nat) :
    (op 1 = .ok a → withRetry op 3 1000 = (.ok a, [])) ∧
    (op 1 = .error e1 → isTransient e1 = false →
      withRetry op 3 1000 = (.error e1, [])) ∧
    (op 1 = .error e1 → isTransient e1 = true → op 2 = .ok a →
      withRetry op 3 1000 = (.ok a, [1000])) ∧
    (op 1 = .error e1 → isTransient e1 = true → op 2 = .error e2 →
      isTransient e2 = false → withRetry op 3 1000 = (.error e2, [1000])) ∧
    (op 1 = .error e1 → isTransient e1 = true → op 2 = .error e2 →
      isTransient e2 = true → op 3 = .error e3 →
      withRetry op 3 1000 = (.error e3, [1000, 2000])) ∧
    (op 1 = .error e1 → isTransient e1 = true → op 2 = .error e2 →
      isTransient e2 = true → op 3 = .ok a →
      withRetry op 3 1000 = (.ok a, [1000, 2000])) ∧
    (∀ (op2 : Nat → Except Nat Nat) (m b : Nat),
      (withRetry op2 m b).2 =
        (List.range (withRetry op2 m b).2.length).map (fun i => b * 2 ^ i)) := by
  refine ⟨?_, ?_, ?_, ?_, ?_, ?_, ?_⟩
  · intro h1; simp [withRetry, withRetryFrom, h1]
  · intro h1 ht1; simp [withRetry, withRetryFrom, h1, ht1]
  · intro h1 ht1 h2; simp [withRetry, withRetryFrom, h1, ht1, h2]
  · intro h1 ht1 h2 ht2; simp [withRetry, withRetryFrom, h1, ht1, h2, ht2]
  · intro h1 ht1 h2 ht2 h3
    simp [withRetry, withRetryFrom, h1, ht1, h2, ht2, h3]
  · intro h1 ht1 h2 ht2 h3
    simp [withRetry, withRetryFrom, h1, ht1, h2, ht2, h3]
  · intro op2 m b
    have h := withRetryFrom_delays op2 b 1 (m - 1) (Nat.le_refl 1)
    simpa [withRetry] using h

/-- Witness for `withRetry_transient_backoff`: an operation failing with
`UNAVAILABLE` then `DEADLINE_EXCEEDED` then succeeding is retried with
delays `[1000, 2000]`; an operation failing with `INVALID_ARGUMENT`
propagates at once with no delay. -/
theorem withRetry_transient_backoff_witness :
    withRetry
        (fun n => if n = 1 then .error 14 else if n = 2 then .error 4
          else (.ok 7 : Except Nat Nat)) 3 1000 = (.ok 7, [1000, 2000]) ∧
    withRetry (fun _ => (.error 3 : Except Nat Nat)) 3 1000 =
      (.error 3, []) := by
  constructor
  · exact (withRetry_transient_backoff
      (fun n => if n = 1 then .error 14 else if n = 2 then .error 4
        else (.ok 7 : Except Nat Nat)) 7 14 4 0).2.2.2.2.2.1
      rfl rfl rfl rfl rfl
  · exact (withRetry_transient_backoff
      (fun _ => (.error 3 : Except Nat Nat)) 0 3 0 0).2.1 rfl rfl

/-!
### Load balancer
-/

/-- Round-robin selection formula: with a fixed nonempty healthy list and
cursor `i`, the `k`-th successive call returns the healthy endpoint at
index `(i + k) % length`. -/
theorem getEndpointSeq_roundRobin (eps : List String) (e : String)
    (es : List String) (i n : Nat) :
    LoadBalancer.getEndpointSeq ⟨eps, e :: es, i⟩ n =
      (List.range n).map
        (fun k => some ((e :: es).getD ((i + k) % (e :: es).length) e)) := by
  induction n generalizing i with
  | zero => simp [LoadBalancer.getEndpointSeq]
  | succ n ih =>
    simp only [LoadBalancer.getEndpointSeq, LoadBalancer.getEndpoint]
    rw [ih (i + 1), List.range_succ_eq_map]
    simp only [List.map_cons, List.map_map, Function.comp, List.cons.injEq]
    constructor
    · have hlt : i % (es.length + 1) < (e :: es).length :=
        Nat.mod_lt _ (Nat.succ_pos es.length)
      simp [List.getD_eq_getElem?_getD, List.getElem?_eq_getElem hlt,
        List.get_eq_getElem]
    · apply List.map_congr_left
      intro k _
      have hx : i + 1 + k = i + (k + 1) := by omega
      rw [hx]
      simp [Nat.succ_eq_add_one]

/-- C5: Round-robin over `[A, B, C]`, all healthy, yields the cyclic
sequence `A, B, C, A, B, C, …`; after `markUnhealthy(B)` (from any
cursor position `i`) the calls yield only `A` and `C`, alternating, as
long as the healthy set stays `[A, C]`; and `getEndpoint` fails with the
no-healthy-endpoints error exactly when the healthy set is empty. -/
theorem loadBalancer_roundRobin_cycle (eps : List String) (i n k : Nat) :
    (LoadBalancer.getEndpointSeq ⟨eps, ["A", "B", "C"], 0⟩ n =
      (List.range n).map
        (fun j => some (["A", "B", "C"].getD (j % 3) "A"))) ∧
    (LoadBalancer.markUnhealthy ⟨eps, ["A", "B", "C"], i⟩ "B" =
      ⟨eps, ["A", "C"], i⟩) ∧
    (LoadBalancer.getEndpointSeq ⟨eps, ["A", "C"], i⟩ n =
      (List.range n).map
        (fun j => some (["A", "C"].getD ((i + j) % 2) "A"))) ∧
    (∀ j : Nat, ["A", "C"].getD (j % 2) "A" = "A" ∨
      ["A", "C"].getD (j % 2) "A" = "C") ∧
    (["A", "C"].getD (k % 2) "A" ≠ ["A", "C"].getD ((k + 1) % 2) "A") ∧
    (∀ lb : LoadBalancer, lb.getEndpoint = none ↔ lb.healthyEndpoints = []) := by
  refine ⟨?_, ?_, ?_, ?_, ?_, ?_⟩
  · have h := getEndpointSeq_roundRobin eps "A" ["B", "C"] 0 n
    simpa using h
  · simp [LoadBalancer.markUnhealthy, List.erase]
  · exact getEndpointSeq_roundRobin eps "A" ["C"] i n
  · intro j
    rcases Nat.mod_two_eq_zero_or_one j with h | h <;> rw [h]
    · left; rfl
    · right; rfl
  · rcases Nat.mod_two_eq_zero_or_one k with h | h <;>
      rw [h] <;> simp [Nat.add_mod, h]
  · intro lb
    obtain ⟨eps2, healthy, idx⟩ := lb
    cases healthy <;> simp [LoadBalancer.getEndpoint]

/-!
### History pagination
-/

/-- C6: For every stored room history and `getHistory` call with an
explicit `limit`: when `before_timestamp` is given (nonzero), only
messages with timestamp strictly less than it are considered; the result
is the first `limit` of the considered messages sorted descending by
timestamp, returned in ascending (chronological) order — so the result
is ascending-sorted, has `min limit considered.length` messages, draws
them from the considered set, and every omitted considered message is no
newer than every returned one; and `has_more` equals
`(returned count == limit)`. -/
theorem getHistory_pagination (history : List Msg) (lim bts : Nat) :
    let considered :=
      if bts ≠ 0 then history.filter (fun m => m.timestamp < bts)
      else history
    let result := getHistoryCore history (some lim) bts
    (bts ≠ 0 → ∀ m ∈ result.1, m.timestamp < bts) ∧
    result.1.Pairwise (fun a b => a.timestamp ≤ b.timestamp) ∧
    result.1.length = min lim considered.length ∧
    (∀ m ∈ result.1, m ∈ considered) ∧
    (∀ x ∈ result.1, ∀ y ∈ considered, y ∉ result.1 →
      y.timestamp ≤ x.timestamp) ∧
    (result.2 = true ↔ result.1.length = lim) := by
  intro considered result
  have hres1 : result.1 =
      ((considered.insertionSort byTimestampDesc).take lim).reverse := by
    simp only [result, considered, getHistoryCore, Option.getD_some]
  have hres2 : result.2 =
      (((considered.insertionSort byTimestampDesc).take lim).length == lim) := by
    simp only [result, considered, getHistoryCore, Option.getD_some]
  have hsorted : (considered.insertionSort byTimestampDesc).Pairwise
      byTimestampDesc := List.sorted_insertionSort byTimestampDesc considered
  have hperm : (considered.insertionSort byTimestampDesc).Perm considered :=
    List.perm_insertionSort byTimestampDesc considered
  have hmemS : ∀ m, m ∈ considered.insertionSort byTimestampDesc ↔
      m ∈ considered := fun m => hperm.mem_iff
  refine ⟨?_, ?_, ?_, ?_, ?_, ?_⟩
  · intro hbts m hm
    rw [hres1] at hm
    have hm2 : m ∈ considered :=
      (hmemS m).mp (List.take_subset _ _ (List.mem_reverse.mp hm))
    have : considered = history.filter (fun m => m.timestamp < bts) := by
      simp only [considered, if_pos hbts]
    rw [this] at hm2
    exact of_decide_eq_true (List.mem_filter.mp hm2).2
  · rw [hres1, List.pairwise_reverse]
    exact (hsorted.sublist (List.take_sublist _ _)).imp (fun h => h)
  · rw [hres1, List.length_reverse, List.length_take, hperm.length_eq]
  · intro m hm
    rw [hres1] at hm
    exact (hmemS m).mp (List.take_subset _ _ (List.mem_reverse.mp hm))
  · intro x hx y hy hyn
    rw [hres1] at hx hyn
    have hx2 : x ∈ (considered.insertionSort byTimestampDesc).take lim :=
      List.mem_reverse.mp hx
    have hy2 : y ∈ (considered.insertionSort byTimestampDesc).drop lim := by
      have hyS : y ∈ considered.insertionSort byTimestampDesc :=
        (hmemS y).mpr hy
      rcases (List.mem_append.mp
        (by rw [List.take_append_drop]; exact hyS :
          y ∈ (considered.insertionSort byTimestampDesc).take lim ++
            (considered.insertionSort byTimestampDesc).drop lim)) with h | h
      · exact absurd (List.mem_reverse.mpr h) hyn
      · exact h
    have hpair := List.pairwise_append.mp
      (by rw [List.take_append_drop]; exact hsorted :
        ((considered.insertionSort byTimestampDesc).take lim ++
          (considered.insertionSort byTimestampDesc).drop lim).Pairwise
          byTimestampDesc)
    exact hpair.2.2 x hx2 y hy2
  · rw [hres2, hres1, List.length_reverse]
    exact beq_iff_eq

/-- Witness for `getHistory_pagination`: history with timestamps
`[5, 3, 7]`, `before_timestamp = 6`, `limit = 1` returns only the
timestamp-5 message; the filter and newest-first hypotheses are
discharged concretely. -/
theorem getHistory_pagination_witness :
    ((6 : Nat) ≠ 0 ∧
      ∀ m ∈ (getHistoryCore
        [⟨"a", "r", "u", "n", "x", .TEXT, 5⟩,
         ⟨"b", "r", "u", "n", "y", .TEXT, 3⟩,
         ⟨"c", "r", "u", "n", "z", .TEXT, 7⟩] (some 1) 6).1,
        m.timestamp < 6) ∧
    (⟨"b", "r", "u", "n", "y", .TEXT, 3⟩ : Msg).timestamp ≤
      (⟨"a", "r", "u", "n", "x", .TEXT, 5⟩ : Msg).timestamp := by
  refine ⟨⟨by decide, (getHistory_pagination
    [⟨"a", "r", "u", "n", "x", .TEXT, 5⟩,
     ⟨"b", "r", "u", "n", "y", .TEXT, 3⟩,
     ⟨"c", "r", "u", "n", "z", .TEXT, 7⟩] 1 6).1 (by decide)⟩, ?_⟩
  exact (getHistory_pagination
    [⟨"a", "r", "u", "n", "x", .TEXT, 5⟩,
     ⟨"b", "r", "u", "n", "y", .TEXT, 3⟩,
     ⟨"c", "r", "u", "n", "z", .TEXT, 7⟩] 1 6).2.2.2.2.1
    ⟨"a", "r", "u", "n", "x", .TEXT, 5⟩ (by decide)
    ⟨"b", "r", "u", "n", "y", .TEXT, 3⟩ (by decide) (by decide)

/-- C10: `getHistory` with `limit` explicitly `0` returns an empty
message list with `has_more = true` (`0 == 0`), for every stored
history (also through the service-level operation, for every service
state and room); the default limit `50` applies exactly when `limit` is
absent, i.e. an absent limit behaves identically to an explicit `50`. -/
theorem getHistory_limit_zero (history : List Msg) (bts : Nat)
    (s : ChatState) (room : String) :
    getHistoryCore history (some 0) bts = ([], true) ∧
    getHistoryService s room (some 0) bts = ([], true) ∧
    getHistoryCore history none bts = getHistoryCore history (some 50) bts := by
  refine ⟨?_, ?_, rfl⟩
  · simp [getHistoryCore]
  · simp [getHistoryService, getHistoryCore]

/-!
### Map and set lemmas
-/

/-- Reading back through a `mapSet`. -/
theorem mapGet_mapSet {α : Type} (m : List (String × α)) (k k1 : String)
    (v : α) :
    mapGet (mapSet m k v) k1 = if k1 = k then some v else mapGet m k1 := by
  induction m with
  | nil =>
    by_cases h : k1 = k
    · subst h; simp [mapGet, mapSet]
    · have h2 : ¬k = k1 := fun hx => h hx.symm
      simp [mapGet, mapSet, h, h2]
  | cons p rest ih =>
    obtain ⟨pk, pv⟩ := p
    by_cases hpk : pk = k
    · subst hpk
      by_cases h : k1 = pk
      · subst h; simp [mapGet, mapSet]
      · have h2 : ¬pk = k1 := fun hx => h hx.symm
        simp [mapGet, mapSet, h, h2]
    · by_cases h2 : pk = k1
      · subst h2
        simp [mapGet, mapSet, hpk, fun hx : pk = k => hpk hx]
      · simp [mapGet, mapSet, hpk, h2, ih]

/-- Setting the same key twice keeps only the second value. -/
theorem mapSet_mapSet {α : Type} (m : List (String × α)) (k : String)
    (v w : α) : mapSet (mapSet m k v) k w = mapSet m k w := by
  induction m with
  | nil => simp [mapSet]
  | cons p rest ih =>
    obtain ⟨pk, pv⟩ := p
    by_cases hpk : pk = k
    · subst hpk; simp [mapSet]
    · simp [mapSet, hpk, ih]

/-- Writing the value already present is a no-op. -/
theorem mapSet_self {α : Type} (m : List (String × α)) (k : String) (v : α)
    (h : mapGet m k = some v) : mapSet m k v = m := by
  induction m with
  | nil => simp [mapGet] at h
  | cons p rest ih =>
    obtain ⟨pk, pv⟩ := p
    by_cases hpk : pk = k
    · subst hpk
      have h2 : pv = v := by simpa [mapGet] using h
      subst h2
      simp [mapSet]
    · simp only [mapGet, if_neg hpk] at h
      simp [mapSet, hpk, ih h]

/-- Deleting one key leaves every other key's binding unchanged. -/
theorem mapGet_mapDelete_ne {α : Type} (m : List (String × α))
    (k k1 : String) (h : k1 ≠ k) : mapGet (mapDelete m k) k1 = mapGet m k1 := by
  induction m with
  | nil => simp [mapDelete]
  | cons p rest ih =>
    obtain ⟨pk, pv⟩ := p
    by_cases hpk : pk = k
    · subst hpk
      have h2 : ¬pk = k1 := fun hx => h (hx.symm)
      simp [mapDelete, mapGet, h2]
    · by_cases h2 : pk = k1
      · subst h2; simp [mapDelete, mapGet, hpk]
      · simp [mapDelete, mapGet, hpk, h2, ih]

/-- A key absent from the key list has no binding. -/
theorem mapGet_eq_none {α : Type} (m : List (String × α)) (k : String)
    (h : k ∉ m.map Prod.fst) : mapGet m k = none := by
  induction m with
  | nil => simp [mapGet]
  | cons p rest ih =>
    obtain ⟨pk, pv⟩ := p
    simp only [List.map_cons, List.mem_cons] at h
    push_neg at h
    have h2 : ¬pk = k := fun hx => h.1 hx.symm
    simp only [mapGet, if_neg h2]
    exact ih h.2

/-- With duplicate-free keys, deleting a key removes its binding. -/
theorem mapGet_mapDelete_self {α : Type} (m : List (String × α)) (k : String)
    (hnd : (m.map Prod.fst).Nodup) : mapGet (mapDelete m k) k = none := by
  induction m with
  | nil => simp [mapDelete, mapGet]
  | cons p rest ih =>
    obtain ⟨pk, pv⟩ := p
    simp only [List.map_cons, List.nodup_cons] at hnd
    by_cases hpk : pk = k
    · subst hpk
      simp only [mapDelete, if_pos rfl]
      exact mapGet_eq_none rest pk hnd.1
    · simp only [mapDelete, if_neg hpk, mapGet]
      exact ih hnd.2

/-- Membership in a JS-set after `add`. -/
theorem mem_setAdd (s : List String) (x y : String) :
    x ∈ setAdd s y ↔ x ∈ s ∨ x = y := by
  by_cases h : y ∈ s
  · simp only [setAdd, if_pos h]
    constructor
    · exact Or.inl
    · rintro (hx | rfl)
      · exact hx
      · exact h
  · simp [setAdd, if_neg h]

/-- The added element is a member. -/
theorem self_mem_setAdd (s : List String) (x : String) : x ∈ setAdd s x := by
  rw [mem_setAdd]; exact Or.inr rfl

/-- Adding a member is a no-op. -/
theorem setAdd_of_mem (s : List String) (x : String) (h : x ∈ s) :
    setAdd s x = s := by
  simp [setAdd, h]

/-- `add` is idempotent. -/
theorem setAdd_idem (s : List String) (x : String) :
    setAdd (setAdd s x) x = setAdd s x :=
  setAdd_of_mem _ _ (self_mem_setAdd s x)

/-- Adding an element to a duplicate-bounded list makes it occur exactly
once. -/
theorem count_setAdd_self (s : List String) (x : String)
    (h : s.count x ≤ 1) : (setAdd s x).count x = 1 := by
  by_cases hx : x ∈ s
  · rw [setAdd_of_mem s x hx]
    have hpos : 0 < s.count x := List.count_pos_iff.mpr hx
    omega
  · have hz : s.count x = 0 := List.count_eq_zero.mpr hx
    simp [setAdd, if_neg hx, List.count_append, hz]

/-!
### Join/leave idempotence
-/

/-- C8: Room membership reflects only the net effect of join/leave by the
same user-room pair: joining twice yields exactly the state of joining
once (in particular no duplicate member — the user occurs exactly once
when the prior state was duplicate-free at that spot), and leaving while
absent leaves the membership relation of every room unchanged. -/
theorem joinLeave_net_effect (s : ChatState)
    (r u un un2 fid fid2 : String) (t t2 : Nat) :
    ((joinRoom (joinRoom s r u un fid t).1 r u un2 fid2 t2).1 =
      (joinRoom s r u un fid t).1) ∧
    ((membersOf s r).count u ≤ 1 →
      (membersOf (joinRoom s r u un fid t).1 r).count u = 1) ∧
    ((s.rooms.map Prod.fst).Nodup → u ∉ membersOf s r →
      ∀ u2 r2, u2 ∈ membersOf (leaveRoom s r u fid t).1 r2 ↔
        u2 ∈ membersOf s r2) := by
  refine ⟨?_, ?_, ?_⟩
  · simp [joinRoom, mapGet_mapSet, setAdd_idem, mapSet_mapSet]
  · intro hc
    have hmem : membersOf (joinRoom s r u un fid t).1 r =
        setAdd (membersOf s r) u := by
      simp [joinRoom, membersOf, mapGet_mapSet]
    rw [hmem]
    exact count_setAdd_self _ _ hc
  · intro hnd hu u2 r2
    cases hget : mapGet s.rooms r with
    | none =>
      have : (leaveRoom s r u fid t).1.rooms = s.rooms := by
        simp [leaveRoom, hget]
      simp [membersOf, this]
    | some M =>
      have huM : u ∉ M := by
        simpa [membersOf, hget] using hu
      have herase : setDelete M u = M := List.erase_of_not_mem huM
      by_cases hlen : M.length = 0
      · have hMnil : M = [] := List.length_eq_zero.mp hlen
        have hrooms : (leaveRoom s r u fid t).1.rooms =
            mapDelete s.rooms r := by
          simp [leaveRoom, hget, herase, hlen]
        by_cases hr2 : r2 = r
        · subst hr2
          simp [membersOf, hrooms, mapGet_mapDelete_self s.rooms r2 hnd,
            hget, hMnil]
        · simp [membersOf, hrooms, mapGet_mapDelete_ne s.rooms r r2 hr2]
      · have hrooms : (leaveRoom s r u fid t).1.rooms = s.rooms := by
          simp [leaveRoom, hget, herase, hlen, mapSet_self s.rooms r M hget]
        simp [membersOf, hrooms]

/-- Witness for `joinLeave_net_effect`: room `r` with sole member `w`;
joining user `v` puts them there exactly once, and `v` leaving before
joining does not disturb the membership of `w`. -/
theorem joinLeave_net_effect_witness :
    ((membersOf (joinRoom ⟨[("r", ["w"])], [], [], [], []⟩
        "r" "v" "vic" "j1" 5).1 "r").count "v" = 1) ∧
    ("w" ∈ membersOf
        (leaveRoom ⟨[("r", ["w"])], [], [], [], []⟩ "r" "v" "l1" 6).1 "r" ↔
      "w" ∈ membersOf (⟨[("r", ["w"])], [], [], [], []⟩ : ChatState) "r") := by
  constructor
  · exact (joinLeave_net_effect ⟨[("r", ["w"])], [], [], [], []⟩
      "r" "v" "vic" "vic" "j1" "j1" 5 5).2.1 (by decide)
  · exact (joinLeave_net_effect ⟨[("r", ["w"])], [], [], [], []⟩
      "r" "v" "vic" "vic" "l1" "l1" 6 6).2.2 (by decide) (by decide) "w" "r"

/-!
### TYPING messages
-/

/-- `getHistory` only ever returns stored messages. -/
theorem getHistoryCore_subset (history : List Msg) (limit : Option Nat)
    (bts : Nat) : ∀ m ∈ (getHistoryCore history limit bts).1, m ∈ history := by
  intro m hm
  simp only [getHistoryCore] at hm
  rw [List.mem_reverse] at hm
  have h1 := List.take_subset _ _ hm
  have h2 := (List.perm_insertionSort byTimestampDesc _).mem_iff.mp h1
  split at h2
  · exact (List.mem_filter.mp h2).1
  · exact h2

/-- No room's stored history contains a TYPING message. -/
def histNoTyping (s : ChatState) : Prop :=
  ∀ room, ∀ m ∈ historyOf s room, m.type ≠ MsgType.TYPING

/-- Appending a non-TYPING message to one room's history preserves the
no-TYPING invariant. -/
theorem histNoTyping_append (s : ChatState) (roomId : String) (stamped : Msg)
    (ht : stamped.type ≠ .TYPING) (h : histNoTyping s) :
    histNoTyping { s with
      messageHistory := mapSet s.messageHistory roomId
        ((mapGet s.messageHistory roomId).getD [] ++ [stamped]) } := by
  intro room m hm
  simp only [historyOf, mapGet_mapSet] at hm
  by_cases hr : room = roomId
  · rw [if_pos hr] at hm
    simp only [Option.getD_some, List.mem_append, List.mem_singleton] at hm
    rcases hm with hm | rfl
    · exact h roomId m (by subst hr; exact hm)
    · exact ht
  · rw [if_neg hr] at hm
    exact h room m hm

/-- A successfully processed stream message preserves the no-TYPING
invariant of the stored histories. -/
theorem processMessage_histNoTyping (s : ChatState) (cr : List String)
    (msg : Msg) (fid : String) (now : Nat) (s1 : ChatState)
    (w : List (String × Msg))
    (hp : processMessage s cr msg fid now = .ok (s1, w))
    (h : histNoTyping s) : histNoTyping s1 := by
  cases hmt : msg.type
  case TYPING =>
    simp only [processMessage, hmt, Except.ok.injEq] at hp
    have hfst : (handleTypingIndicator s cr msg).1 = s := by
      rw [handleTypingIndicator]
      split <;> rfl
    have hs : s = s1 := by rw [← hfst, hp]
    rw [← hs]
    exact h
  case SYSTEM =>
    simp only [processMessage, hmt, handleSystemMessage, Except.ok.injEq,
      Prod.mk.injEq] at hp
    obtain ⟨h1, _⟩ := hp
    rw [← h1]
    refine histNoTyping_append s msg.room_id _ ?_ h
    simp
  all_goals
    simp only [processMessage, hmt, handleChatMessage] at hp
  all_goals
    split at hp
  all_goals
    first
      | exact Except.noConfusion hp
      | (simp only [Except.ok.injEq, Prod.mk.injEq] at hp
         obtain ⟨h1, _⟩ := hp
         rw [← h1]
         refine histNoTyping_append s msg.room_id _ ?_ h
         simp)

/-- Every service step preserves the no-TYPING invariant. -/
theorem histNoTyping_step (s : ChatState) (e : ChatEvent)
    (h : histNoTyping s) : histNoTyping (chatStep s e) := by
  cases e with
  | bind uid => exact h
  | stream cr msg fid now =>
    simp only [chatStep]
    cases hp : processMessage s cr msg fid now with
    | error _ => exact h
    | ok p =>
      obtain ⟨s1, w⟩ := p
      exact processMessage_histNoTyping s cr msg fid now s1 w hp h
  | join room_id user_id username fid now => exact h
  | leave room_id user_id fid now => exact h
  | presence user_id status fids now => exact h
  | disconnect uid urs fids now => exact h

/-- The no-TYPING invariant holds along every trace. -/
theorem histNoTyping_run (s : ChatState) (events : List ChatEvent)
    (h : histNoTyping s) : histNoTyping (chatRun s events) := by
  induction events generalizing s with
  | nil => exact h
  | cons e rest ih => exact ih _ (histNoTyping_step s e h)

/-- The fresh service satisfies the no-TYPING invariant. -/
theorem histNoTyping_init : histNoTyping chatInit := by
  intro room m hm
  simp [historyOf, chatInit, mapGet] at hm

/-- C7: An inbound TYPING message from a sender whose current room set
lacks the target room is silently ignored (`ok` result, unchanged state,
no writes); from a member it is fanned out, unmodified, to exactly the
connected room members other than the sender; and along every event
trace from a fresh service no TYPING message is ever in any room's
stored history, so TYPING messages never appear in `getHistory`
output. -/
theorem typing_ignored_excluded_never_persisted
    (s : ChatState) (cr : List String) (m : Msg) (fid : String) (now : Nat)
    (events : List ChatEvent) (room : String) (lim : Option Nat) (bts : Nat) :
    (m.type = .TYPING → m.room_id ∉ cr →
      processMessage s cr m fid now = .ok (s, [])) ∧
    (m.type = .TYPING → m.room_id ∈ cr →
      processMessage s cr m fid now =
        .ok (s, broadcastToRoom s m.room_id m (some m.user_id)) ∧
      (broadcastToRoom s m.room_id m (some m.user_id)).map Prod.fst =
        (membersOf s m.room_id).filter
          (fun u => u ≠ m.user_id ∧ u ∈ s.userStreams)) ∧
    (∀ m2 ∈ historyOf (chatRun chatInit events) room,
      m2.type ≠ MsgType.TYPING) ∧
    (∀ m2 ∈ (getHistoryService (chatRun chatInit events) room lim bts).1,
      m2.type ≠ MsgType.TYPING) := by
  refine ⟨?_, ?_, ?_, ?_⟩
  · intro hmt hnotin
    simp [processMessage, hmt, handleTypingIndicator, hnotin]
  · intro hmt hin
    constructor
    · simp [processMessage, hmt, handleTypingIndicator, hin]
    · simp only [broadcastToRoom, List.map_map]
      have hcomp : (Prod.fst ∘ fun u : String => (u, m)) = id := rfl
      rw [hcomp, List.map_id]
      apply List.filter_congr
      intro u hu
      simp [ne_comm]
  · exact fun m2 hm2 =>
      histNoTyping_run chatInit events histNoTyping_init room m2 hm2
  · intro m2 hm2
    have hsub := getHistoryCore_subset
      (historyOf (chatRun chatInit events) room) lim bts m2 hm2
    exact histNoTyping_run chatInit events histNoTyping_init room m2 hsub

/-- Witness for `typing_ignored_excluded_never_persisted`: a TYPING
message into room `r` from outside is ignored; from member `a` it is
delivered excluding the sender. -/
theorem typing_ignored_excluded_never_persisted_witness :
    processMessage ⟨[("r", ["a", "b"])], ["a", "b"], [], [], []⟩ []
        ⟨"x", "r", "a", "al", "t", .TYPING, 1⟩ "f" 9 =
      .ok (⟨[("r", ["a", "b"])], ["a", "b"], [], [], []⟩, []) ∧
    processMessage ⟨[("r", ["a", "b"])], ["a", "b"], [], [], []⟩ ["r"]
        ⟨"x", "r", "a", "al", "t", .TYPING, 1⟩ "f" 9 =
      .ok (⟨[("r", ["a", "b"])], ["a", "b"], [], [], []⟩,
        broadcastToRoom ⟨[("r", ["a", "b"])], ["a", "b"], [], [], []⟩ "r"
          ⟨"x", "r", "a", "al", "t", .TYPING, 1⟩ (some "a")) := by
  constructor
  · exact (typing_ignored_excluded_never_persisted
      ⟨[("r", ["a", "b"])], ["a", "b"], [], [], []⟩ []
      ⟨"x", "r", "a", "al", "t", .TYPING, 1⟩ "f" 9 [] "r" none 0).1
      rfl (by decide)
  · exact ((typing_ignored_excluded_never_persisted
      ⟨[("r", ["a", "b"])], ["a", "b"], [], [], []⟩ ["r"]
      ⟨"x", "r", "a", "al", "t", .TYPING, 1⟩ "f" 9 [] "r" none 0).2.1
      rfl (by decide)).1

/-!
### Room deletion and history lifetime
-/

/-- C1 counterexample: user `u` joins room `r`, sends one TEXT message
(persisted at timestamp 2), then leaves.  The member set becomes empty
and the room is removed from the registry, but the message history is
NOT deleted: a subsequent `getHistory` for `r` still returns the
message, contradicting the claim that it returns an empty list. -/
theorem leaveRoom_history_survives_cex :
    mapGet ((leaveRoom
        (chatRun chatInit
          [.join "r" "u" "alice" "j1" 1,
           .stream ["r"] ⟨"", "r", "u", "alice", "hi", .TEXT, 0⟩ "m1" 2])
        "r" "u" "l1" 3).1).rooms "r" = none ∧
    getHistoryService (leaveRoom
        (chatRun chatInit
          [.join "r" "u" "alice" "j1" 1,
           .stream ["r"] ⟨"", "r", "u", "alice", "hi", .TEXT, 0⟩ "m1" 2])
        "r" "u" "l1" 3).1 "r" none 0 =
      ([⟨"m1", "r", "u", "alice", "hi", .TEXT, 2⟩], false) := by
  decide

/-- C1 amended: when a `leaveRoom` call empties a room's member set the
room is deleted from the registry, but its message history is retained
(the `messageHistory` map is untouched), so a subsequent `getHistory`
for that room id returns exactly what it returned before the leave —
not an empty list. -/
theorem leaveRoom_empty_deletes_room_retains_history
    (s : ChatState) (r u fid : String) (now : Nat) (lim : Option Nat)
    (bts : Nat) (hnd : (s.rooms.map Prod.fst).Nodup)
    (hm : mapGet s.rooms r = some [u]) :
    mapGet ((leaveRoom s r u fid now).1).rooms r = none ∧
    (leaveRoom s r u fid now).1.messageHistory = s.messageHistory ∧
    getHistoryService (leaveRoom s r u fid now).1 r lim bts =
      getHistoryService s r lim bts := by
  have hrooms : (leaveRoom s r u fid now).1.rooms = mapDelete s.rooms r := by
    simp [leaveRoom, hm, setDelete]
  refine ⟨?_, rfl, rfl⟩
  rw [hrooms]
  exact mapGet_mapDelete_self s.rooms r hnd

/-- Witness for `leaveRoom_empty_deletes_room_retains_history`: room `r`
with sole member `u` and one stored message; after `u` leaves, the room
registry entry is gone but `getHistory` output is unchanged. -/
theorem leaveRoom_empty_deletes_room_retains_history_witness :
    mapGet ((leaveRoom
        ⟨[("r", ["u"])], [], [("u", ["r"])],
          [("r", [⟨"m1", "r", "u", "alice", "hi", .TEXT, 2⟩])], []⟩
        "r" "u" "l1" 3).1).rooms "r" = none ∧
    getHistoryService (leaveRoom
        ⟨[("r", ["u"])], [], [("u", ["r"])],
          [("r", [⟨"m1", "r", "u", "alice", "hi", .TEXT, 2⟩])], []⟩
        "r" "u" "l1" 3).1 "r" none 0 =
      getHistoryService
        ⟨[("r", ["u"])], [], [("u", ["r"])],
          [("r", [⟨"m1", "r", "u", "alice", "hi", .TEXT, 2⟩])], []⟩
        "r" none 0 := by
  obtain ⟨h1, _, h3⟩ := leaveRoom_empty_deletes_room_retains_history
    ⟨[("r", ["u"])], [], [("u", ["r"])],
      [("r", [⟨"m1", "r", "u", "alice", "hi", .TEXT, 2⟩])], []⟩
    "r" "u" "l1" 3 none 0 (by decide) (by decide)
  exact ⟨h1, h3⟩

/-!
### SYSTEM messages
-/

/-- C9 counterexample: `u2` joins room `r` where `u1` is a connected
member.  The internally generated SYSTEM "joined" notification is fanned
out (one write, to `u1`), but the message history stays empty — the
internally generated notification is not persisted, contradicting the
claim that every SYSTEM message is persisted with no special-casing. -/
theorem joinRoom_system_notification_not_persisted_cex :
    (joinRoom (joinRoom (bindStream chatInit "u1") "r" "u1" "alice" "j1" 1).1
        "r" "u2" "bob" "j2" 2).2.1 =
      [("u1", ⟨"j2", "r", "u2", "bob", "bob joined the room", .SYSTEM, 2⟩)] ∧
    (joinRoom (joinRoom (bindStream chatInit "u1") "r" "u1" "alice" "j1" 1).1
        "r" "u2" "bob" "j2" 2).1.messageHistory = [] := by
  decide

/-- C9 amended: a SYSTEM message received on the stream is persisted to
the room's history (appended, with fresh server id and timestamp) and
fanned out to the connected room members, with no membership check; the
internally generated join/leave/presence/disconnect notifications are
SYSTEM-typed and are fanned out, but they bypass `handleSystemMessage`
and are NOT persisted — the `messageHistory` map is untouched by
`joinRoom`, `leaveRoom`, `updatePresence` and disconnect handling. -/
theorem system_stream_persisted_internal_not
    (s : ChatState) (cr : List String) (m : Msg) (fid : String) (now : Nat)
    (r u un st : String) (fids : List String) :
    (m.type = .SYSTEM →
      processMessage s cr m fid now = .ok (handleSystemMessage s m fid now)) ∧
    (historyOf (handleSystemMessage s m fid now).1 m.room_id =
      historyOf s m.room_id ++ [{ m with id := fid, timestamp := now }]) ∧
    ((handleSystemMessage s m fid now).2.map Prod.fst =
      (membersOf s m.room_id).filter (fun x => x ∈ s.userStreams)) ∧
    ((joinRoom s r u un fid now).1.messageHistory = s.messageHistory) ∧
    (∀ p ∈ (joinRoom s r u un fid now).2.1, p.2.type = .SYSTEM) ∧
    ((leaveRoom s r u fid now).1.messageHistory = s.messageHistory) ∧
    (∀ p ∈ (leaveRoom s r u fid now).2, p.2.type = .SYSTEM) ∧
    ((updatePresence s u st fids now).1.messageHistory = s.messageHistory) ∧
    (∀ p ∈ (updatePresence s u st fids now).2, p.2.type = .SYSTEM) ∧
    ((handleUserDisconnect s u cr fids now).1.messageHistory =
      s.messageHistory) ∧
    (∀ p ∈ (handleUserDisconnect s u cr fids now).2, p.2.type = .SYSTEM) := by
  refine ⟨?_, ?_, ?_, rfl, ?_, rfl, ?_, rfl, ?_, rfl, ?_⟩
  · intro hmt
    simp [processMessage, hmt]
  · simp [handleSystemMessage, historyOf, mapGet_mapSet]
  · simp only [handleSystemMessage, broadcastToRoom, List.map_map]
    have hcomp : (Prod.fst ∘ fun x : String =>
        (x, { m with id := fid, timestamp := now })) = id := rfl
    rw [hcomp, List.map_id]
    apply List.filter_congr
    intro x hx
    simp
  · intro p hp
    simp only [joinRoom, broadcastToRoom, List.mem_map] at hp
    obtain ⟨x, _, rfl⟩ := hp
    rfl
  · intro p hp
    simp only [leaveRoom, broadcastToRoom, List.mem_map] at hp
    obtain ⟨x, _, rfl⟩ := hp
    rfl
  · intro p hp
    simp only [updatePresence, broadcastToRoom, List.mem_flatMap,
      List.mem_map] at hp
    obtain ⟨q, _, x, _, rfl⟩ := hp
    rfl
  · intro p hp
    simp only [handleUserDisconnect, broadcastToRoom, List.mem_flatMap,
      List.mem_map] at hp
    obtain ⟨q, _, x, _, rfl⟩ := hp
    rfl

/-- Witness for `system_stream_persisted_internal_not`: a SYSTEM message
received on the stream goes through `handleSystemMessage`. -/
theorem system_stream_persisted_internal_not_witness :
    processMessage ⟨[("r", ["a"])], ["a"], [], [], []⟩ []
        ⟨"x", "r", "a", "al", "srv", .SYSTEM, 1⟩ "f" 9 =
      .ok (handleSystemMessage ⟨[("r", ["a"])], ["a"], [], [], []⟩
        ⟨"x", "r", "a", "al", "srv", .SYSTEM, 1⟩ "f" 9) :=
  (system_stream_persisted_internal_not
    ⟨[("r", ["a"])], ["a"], [], [], []⟩ []
    ⟨"x", "r", "a", "al", "srv", .SYSTEM, 1⟩ "f" 9 "r" "a" "al" "ON" []).1 rfl
